import Mathlib

/-!
# Verification of the `duo-recall` vocabulary-practice CLI

Shallow embedding of `src/duo_recall.py` (a Typer CLI with three commands:
`vocab-refresh`, `write`, `speak`) and proofs about its data model and
control flow.

Modelling conventions:
* JSON cache files on disk are modelled by small inductive "file state"
  types (`VocabFile`, `TransFile`): missing, corrupt (malformed JSON), or
  valid with parsed content.
* The Python dict `translated_vocab` (insertion-ordered, string keys) is
  modelled as an association list `TransMap`; dict assignment is `dictSet`
  (update in place for an existing key, append for a new one), matching
  CPython dict semantics.
* Browser/DOM interaction of the translator (fill the search box, press
  Enter, wait for the matching span, read and parse its `title` attribute,
  lines 205-231) is abstracted as an oracle
  `lookup : String → Option (List String)`: `some ts` when the lookup
  succeeds with parsed translation list `ts`, `none` when it times out or
  throws (the `except` branch, which skips the word).
* User input at the terminal (`Prompt.ask`) is a stream
  `input : Nat → String`, consumed left to right by a cursor.
* `random.shuffle` is a parameter `shuffle : List String → List String`;
  theorems that need it assume it permutes its argument.
* The quiz `while` loop is embedded with an explicit fuel parameter for
  structural recursion; `write` supplies fuel `quiz_words.length`, which
  is enough because `question_index` strictly increases each iteration
  (lemmas below are stated with the corresponding fuel bounds).
-/

namespace DuoRecall

/-- Python `str.lower()`: lowercase the string character by character
(`Char.toLower`, which covers the ASCII range of the inputs at play). -/
def pyLower (s : String) : String := ⟨s.data.map Char.toLower⟩

/-- Python `str.strip()`: remove leading and trailing whitespace. -/
def pyStrip (s : String) : String :=
  ⟨((s.data.dropWhile Char.isWhitespace).reverse.dropWhile
      Char.isWhitespace).reverse⟩

/-- State of the vocabulary cache file `my-vocab.json`: absent, present but
malformed JSON, or present and parsing to a list of words. -/
inductive VocabFile where
  | missing
  | corrupt
  | valid (vocab : List String)
deriving DecidableEq, Repr

/-- The translation mapping (Python dict `translated_vocab`), as an
insertion-ordered association list from a Spanish word to its candidate
English translations. -/
abbrev TransMap : Type := List (String × List String)

/-- State of the translated cache file `my-vocab-translated.json`. -/
inductive TransFile where
  | missing
  | corrupt
  | valid (tv : TransMap)
deriving DecidableEq

/-- Keys of the translation mapping, in insertion order
(`translated_vocab.keys()`). -/
def tmKeys (m : TransMap) : List String := m.map Prod.fst

/-- Python dict assignment `translated_vocab[k] = v`: replaces the value in
place when `k` is already a key, appends the pair at the end otherwise. -/
def dictSet (m : TransMap) (k : String) (v : List String) : TransMap :=
  match m with
  | [] => [(k, v)]
  | (k', v') :: rest =>
    if k' = k then (k, v) :: rest else (k', v') :: dictSet rest k v

/-- `load_vocab_from_file` (lines 37-50): exits with code 1 when the file is
missing or its JSON is malformed, otherwise returns the parsed list. -/
def load_vocab_from_file : VocabFile → Except Nat (List String)
  | .missing => .error 1
  | .corrupt => .error 1
  | .valid v => .ok v

/-- `load_translated_vocab` (lines 53-62): returns `{}` when the file is
missing; when it exists but reading/parsing fails, prints an error message
and also returns `{}` (it does not exit); otherwise returns the parsed
mapping. -/
def load_translated_vocab : TransFile → TransMap
  | .missing => ([] : TransMap)
  | .corrupt => ([] : TransMap)
  | .valid m => m

/-- The per-word translation loop of `write` (lines 205-231): each word of
`words_to_translate` is looked up; on success the dict entry is assigned,
on failure (timeout/exception) the word is skipped. -/
def translateLoop (lookup : String → Option (List String)) :
    List String → TransMap → TransMap
  | [], tv => tv
  | w :: ws, tv =>
    match lookup w with
    | some ts => translateLoop lookup ws (dictSet tv w ts)
    | none => translateLoop lookup ws tv

/-- Result of the translation phase of `write` (lines 186-234): the mapping
afterwards, the words looked up (in order), whether a browser session was
opened, how many times `save_translated_vocab` ran, and what was written. -/
structure TransPhaseResult where
  map : TransMap
  lookups : List String
  browserOpened : Bool
  saveCount : Nat
  savedTrans : Option TransMap
deriving DecidableEq

/-- Translation phase of `write` (lines 186-234): compute
`words_to_translate = [w for w in vocab if w not in translated_vocab]`;
if that is empty and the mapping is non-empty, skip scraping entirely
(no browser, no save); otherwise open a browser, run the lookup loop, and
persist the merged mapping once. -/
def translatePhase (lookup : String → Option (List String))
    (vocab : List String) (tv : TransMap) : TransPhaseResult :=
  let wtt := vocab.filter (fun w => !(tmKeys tv).contains w)
  if wtt.isEmpty && !tv.isEmpty then
    ⟨tv, [], false, 0, none⟩
  else
    let final := translateLoop lookup wtt tv
    ⟨final, wtt, true, 1, some final⟩

/-- Result of the `for` loop over one batch of questions (lines 255-267):
updated correct count, total count, and input cursor. No early exit occurs
inside a batch. -/
structure GradeResult where
  correct : Nat
  total : Nat
  cursor : Nat
deriving DecidableEq

/-- One batch of quiz questions (lines 255-267): for each word, read an
answer, count the question, and grade
`user_input.lower().strip() in [t.lower() for t in english_translations]`. -/
def gradeBatch (tv : TransMap) (input : Nat → String) :
    List String → Nat → Nat → Nat → GradeResult
  | [], cursor, correct, total => ⟨correct, total, cursor⟩
  | w :: ws, cursor, correct, total =>
    let ets := (List.lookup w tv).getD []
    let ok := (ets.map pyLower).contains (pyStrip (pyLower (input cursor)))
    gradeBatch tv input ws (cursor + 1)
      (if ok then correct + 1 else correct) (total + 1)

/-- Final observable state of the quiz loop. -/
structure QuizResult where
  correct : Nat
  total : Nat
  presented : List String
deriving DecidableEq

/-- The quiz `while` loop of `write` (lines 250-277), embedded with a fuel
parameter. Each iteration takes the slice
`quiz_words[question_index : question_index + batch_size]` with
`batch_size = min(10, len - question_index)`, grades it, and — exactly as
in the source — advances `question_index` by `batch_size` twice (once at
line 253, once at line 269). The continue prompt fires only when the
doubly-advanced index is still below the list length; any answer whose
lowercasing is not `"y"` breaks out of the loop.

The fuel-exhausted case returns the current counters; `write` passes fuel
`quiz_words.length`, which can never run out because `question_index`
grows by at least 2 per iteration (see the lemmas stated with fuel
bounds). -/
def quizGo (tv : TransMap) (words : List String) (input : Nat → String) :
    Nat → Nat → Nat → Nat → Nat → List String → QuizResult
  | 0, _, _, correct, total, pres => ⟨correct, total, pres⟩
  | fuel + 1, qi, cursor, correct, total, pres =>
    if qi < words.length then
      let bs := min 10 (words.length - qi)
      let qs := (words.drop qi).take bs
      let g := gradeBatch tv input qs cursor correct total
      if qi + bs + bs < words.length then
        if pyLower (input g.cursor) = "y" then
          quizGo tv words input fuel (qi + bs + bs) (g.cursor + 1)
            g.correct g.total (pres ++ qs)
        else ⟨g.correct, g.total, pres ++ qs⟩
      else ⟨g.correct, g.total, pres ++ qs⟩
    else ⟨correct, total, pres⟩

/-- Outcome of a `write` invocation: an exit via `typer.Exit` with the given
code, a `ZeroDivisionError` at the score line, or a normal finish printing
the final report `correct/total`. -/
inductive WriteOutcome where
  | exit (code : Nat)
  | divError
  | finished (correct total : Nat)
deriving DecidableEq

/-- The quiz phase of `write` (lines 246-277): shuffle the keys of the
translation mapping and run the batch loop from `question_index = 0` with
zeroed counters. The fuel `words.length` never runs out because
`question_index` grows by at least 2 per iteration. -/
def quizPhase (tv : TransMap) (shuffle : List String → List String)
    (input : Nat → String) : QuizResult :=
  let words := shuffle (tmKeys tv)
  quizGo tv words input words.length 0 0 0 0 []

/-- The final report (lines 279-282): the percentage expression
`correct_count / total_questions * 100` raises `ZeroDivisionError` when
`total_questions` is zero; otherwise the report is printed and the command
finishes normally. -/
def reportOutcome (q : QuizResult) : WriteOutcome :=
  if q.total = 0 then .divError else .finished q.correct q.total

/-- Observable result of one `write` invocation. -/
structure WriteResult where
  outcome : WriteOutcome
  browserOpened : Bool
  lookups : List String
  saveCount : Nat
  savedTrans : Option TransMap
  finalTransFile : TransFile
  presented : List String
deriving DecidableEq

/-- The `write` command (lines 169-282). Loads the vocab cache (exit 1 if
missing/corrupt); exits via bare `typer.Exit()` — exit code 0 — when the
parsed list is empty; loads the translation mapping (malformed file yields
`{}`); runs the translation phase; exits via bare `typer.Exit()` (code 0)
when the mapping is still empty; otherwise shuffles the mapping's keys and
runs the quiz loop, then produces the final report, whose percentage
expression `correct_count / total_questions * 100` raises
`ZeroDivisionError` when the total is zero. -/
def write (vf : VocabFile) (tf : TransFile)
    (lookup : String → Option (List String))
    (shuffle : List String → List String) (input : Nat → String) :
    WriteResult :=
  match load_vocab_from_file vf with
  | .error c => ⟨.exit c, false, [], 0, none, tf, []⟩
  | .ok vocab =>
    if vocab.isEmpty then
      ⟨.exit 0, false, [], 0, none, tf, []⟩
    else
      let tv := load_translated_vocab tf
      let tp := translatePhase lookup vocab tv
      let tf' := match tp.savedTrans with
        | some m => TransFile.valid m
        | none => tf
      if tp.map.isEmpty then
        ⟨.exit 0, tp.browserOpened, tp.lookups, tp.saveCount,
          tp.savedTrans, tf', []⟩
      else
        let q := quizPhase tp.map shuffle input
        ⟨reportOutcome q, tp.browserOpened, tp.lookups, tp.saveCount,
          tp.savedTrans, tf', q.presented⟩

/-! ## Scraper (`vocab_refresh`, lines 81-163) -/

/-- One lesson (`<li>` of `ul.paddedSkills`) as the scraper observes it:
whether the `.crown.empty` marker is visible (lesson not yet completed),
whether the per-lesson `try` block raises before extracting anything
(caught, logged, lesson skipped), whether the `blockquote` notes block is
visible, and the inner texts of its `<b>` elements in document order. -/
structure Lesson where
  crownEmpty : Bool
  extractionFails : Bool
  blockquoteVisible : Bool
  words : List String
deriving DecidableEq

/-- The inner word-extraction loop of `vocab_refresh` (lines 140-144):
strip each bold text node and append it to `completed_words` only if it is
not yet in `seen_words`, also recording it in `seen_words`. Returns the
updated `(completed_words, seen_words)` pair. -/
def processWords : List String → List String → List String →
    List String × List String
  | [], acc, seen => (acc, seen)
  | n :: ns, acc, seen =>
    let w := pyStrip n
    if seen.contains w then processWords ns acc seen
    else processWords ns (acc ++ [w]) (seen ++ [w])

/-- The lesson iteration of `vocab_refresh` (lines 119-155): for each
lesson in document order, halt (`break`) when the `.crown.empty` marker is
visible; otherwise, inside `try`, skip the lesson (`continue`) when
processing raises; extract and deduplicate the bold words when the
`blockquote` is visible; and halt when it is not. -/
def scrapeLessons : List Lesson → List String → List String → List String
  | [], acc, _ => acc
  | l :: rest, acc, seen =>
    if l.crownEmpty then acc
    else if l.extractionFails then scrapeLessons rest acc seen
    else if l.blockquoteVisible then
      let p := processWords l.words acc seen
      scrapeLessons rest p.1 p.2
    else acc

/-- The word list produced by one `vocab-refresh` scrape, starting from
empty `completed_words` and `seen_words`. -/
def vocab_refresh_words (lessons : List Lesson) : List String :=
  scrapeLessons lessons [] []

/-- The deduplication loop applied to a flat sequence of extracted bold
text nodes (the subject of the deduplication property). -/
def scrape_dedup (nodes : List String) : List String :=
  (processWords nodes [] []).1

/-- Spec-level description of first-seen deduplication: keep each word's
first occurrence, in first-seen order, dropping all later duplicates.
Stated from the spec's words, to be compared with the code-derived
`scrape_dedup`. -/
def firstSeen : List String → List String
  | [] => []
  | x :: xs => x :: firstSeen (xs.filter (fun y => y ≠ x))
termination_by l => l.length
decreasing_by
  simp only [List.length_cons]
  exact Nat.lt_succ_of_le (List.length_filter_le _ _)

/-! ## JSON round trip for the vocabulary cache (lines 26-50)

`save_vocab_to_file` serialises the word list with `json.dump`;
`load_vocab_from_file` parses the file with `json.load`. The JSON
serialisation primitives themselves are external; the file content is
modelled at the level of the JSON value written/parsed. -/

/-- A JSON value. -/
inductive JsonVal where
  | null
  | bool (b : Bool)
  | num (n : Int)
  | str (s : String)
  | arr (xs : List JsonVal)
  | obj (kvs : List (String × JsonVal))

/-- The JSON value `save_vocab_to_file` writes for a word list: an array of
strings (lines 26-34). -/
def save_vocab_to_file (vocab : List String) : JsonVal :=
  .arr (vocab.map .str)

/-- Interpreting a list of parsed JSON values as an ordered sequence of
strings: succeeds exactly when every element is a string. -/
def stringsOfJson : List JsonVal → Option (List String)
  | [] => some []
  | .str s :: rest => (stringsOfJson rest).map (s :: ·)
  | _ => none

/-- Interpreting a parsed JSON value as an ordered word list, as
`load_vocab_from_file`'s caller consumes it: a JSON array whose elements
are all strings, in order. -/
def vocab_of_json : JsonVal → Option (List String)
  | .arr xs => stringsOfJson xs
  | _ => none

/-! ## Helper lemmas -/

/-- Decoding a serialised word list element by element returns the list. -/
theorem stringsOfJson_map_str (l : List String) :
    stringsOfJson (l.map JsonVal.str) = some l := by
  induction l with
  | nil => rfl
  | cons x xs ih => simp [stringsOfJson, ih]

/-- A concrete eleven-entry translation mapping, used to exercise the quiz
loop past its first batch. -/
def elevenWordMap : TransMap :=
  [("w01", ["a"]), ("w02", ["a"]), ("w03", ["a"]), ("w04", ["a"]),
   ("w05", ["a"]), ("w06", ["a"]), ("w07", ["a"]), ("w08", ["a"]),
   ("w09", ["a"]), ("w10", ["a"]), ("w11", ["a"])]

/-- Grading a batch asks one question per word: the total grows by the
batch length. -/
theorem gradeBatch_total (tv : TransMap) (input : Nat → String) :
    ∀ (qs : List String) (cursor correct total : Nat),
      (gradeBatch tv input qs cursor correct total).total =
        total + qs.length := by
  intro qs
  induction qs with
  | nil => intro cursor correct total; simp [gradeBatch]
  | cons w ws ih =>
    intro cursor correct total
    simp [gradeBatch, ih]
    omega

/-- The quiz loop never decreases the question count. -/
theorem quizGo_total_le (tv : TransMap) (words : List String)
    (input : Nat → String) :
    ∀ (fuel qi cursor correct total : Nat) (pres : List String),
      total ≤ (quizGo tv words input fuel qi cursor correct total pres).total := by
  intro fuel
  induction fuel with
  | zero => intro qi cursor correct total pres; simp [quizGo]
  | succ f ih =>
    intro qi cursor correct total pres
    simp only [quizGo]
    split
    · split
      · split
        · exact le_trans (by simp [gradeBatch_total]) (ih _ _ _ _ _)
        · simp [gradeBatch_total]
      · simp [gradeBatch_total]
    · exact le_rfl

/-- Once the quiz loop starts below the end of the word list, at least one
question is asked. -/
theorem quizGo_total_pos (tv : TransMap) (words : List String)
    (input : Nat → String) (fuel qi cursor correct total : Nat)
    (pres : List String) (h : qi < words.length) :
    total + 1 ≤
      (quizGo tv words input (fuel + 1) qi cursor correct total pres).total := by
  have hq : (min 10 (words.length - qi)) ≥ 1 := by omega
  have hlen :
      ((words.drop qi).take (min 10 (words.length - qi))).length =
        min 10 (words.length - qi) := by
    rw [List.length_take, List.length_drop]
    omega
  simp only [quizGo, if_pos h]
  split
  · split
    · refine le_trans ?_ (quizGo_total_le tv words input _ _ _ _ _ _)
      simp [gradeBatch_total, hlen]
      omega
    · simp [gradeBatch_total, hlen]
      omega
  · simp [gradeBatch_total, hlen]
    omega

/-- Every word the quiz loop presents comes from the initial accumulator or
from the word list itself. -/
theorem quizGo_presented_sub (tv : TransMap) (words : List String)
    (input : Nat → String) :
    ∀ (fuel qi cursor correct total : Nat) (pres : List String)
      (w : String), w ∈ (quizGo tv words input fuel qi cursor correct total
        pres).presented → w ∈ pres ∨ w ∈ words := by
  intro fuel
  induction fuel with
  | zero => intro qi cursor correct total pres w hw; exact Or.inl (by simpa [quizGo] using hw)
  | succ f ih =>
    intro qi cursor correct total pres w hw
    have hqs : ∀ v, v ∈ (words.drop qi).take (min 10 (words.length - qi)) →
        v ∈ words := fun v hv =>
      List.drop_subset _ _ (List.take_subset _ _ hv)
    simp only [quizGo] at hw
    split at hw
    · split at hw
      · split at hw
        · rcases ih _ _ _ _ _ _ hw with h1 | h1
          · rcases List.mem_append.mp h1 with h2 | h2
            · exact Or.inl h2
            · exact Or.inr (hqs _ h2)
          · exact Or.inr h1
        · simp only [QuizResult.mk.injEq] at hw
          rcases List.mem_append.mp hw with h2 | h2
          · exact Or.inl h2
          · exact Or.inr (hqs _ h2)
      · rcases List.mem_append.mp hw with h2 | h2
        · exact Or.inl h2
        · exact Or.inr (hqs _ h2)
    · exact Or.inl hw

/-- With a non-empty translation mapping and a permuting shuffle, the quiz
phase answers at least one question. -/
theorem quizPhase_total_pos (tv : TransMap)
    (shuffle : List String → List String) (input : Nat → String)
    (hs : (shuffle (tmKeys tv)).Perm (tmKeys tv)) (htv : tv ≠ []) :
    1 ≤ (quizPhase tv shuffle input).total := by
  have hpos : 0 < (shuffle (tmKeys tv)).length := by
    rw [hs.length_eq]
    simpa [tmKeys, List.length_pos] using htv
  obtain ⟨n, hn⟩ : ∃ n, (shuffle (tmKeys tv)).length = n + 1 :=
    ⟨_, (Nat.succ_pred_eq_of_pos hpos).symm⟩
  simp only [quizPhase]
  rw [hn]
  simpa using quizGo_total_pos tv (shuffle (tmKeys tv)) input n 0 0 0 0 []
    (by omega)

/-- Every `write` run either exits via `typer.Exit`, or reaches the final
report of a quiz over the keys of a non-empty post-translation mapping. -/
theorem write_outcome_spec (vf : VocabFile) (tf : TransFile)
    (lookup : String → Option (List String))
    (shuffle : List String → List String) (input : Nat → String) :
    (∃ c, (write vf tf lookup shuffle input).outcome = .exit c) ∨
    (∃ tv : TransMap, tv ≠ [] ∧
      (write vf tf lookup shuffle input).outcome =
        reportOutcome (quizPhase tv shuffle input) ∧
      (write vf tf lookup shuffle input).presented =
        (quizPhase tv shuffle input).presented) := by
  cases vf with
  | missing => exact Or.inl ⟨1, rfl⟩
  | corrupt => exact Or.inl ⟨1, rfl⟩
  | valid v =>
    simp only [write, load_vocab_from_file]
    split
    · exact Or.inl ⟨0, rfl⟩
    · split
      · exact Or.inl ⟨0, rfl⟩
      · rename_i hm
        exact Or.inr ⟨_, by simpa [List.isEmpty_iff] using hm, rfl, rfl⟩

/-- When every vocabulary word is already a key of the mapping and the
vocabulary is non-empty, the translation phase takes the short-circuit
branch: no lookups, no browser, no save. -/
theorem translatePhase_skip (lookup : String → Option (List String))
    (vocab : List String) (tv : TransMap)
    (hsub : ∀ w ∈ vocab, w ∈ tmKeys tv) (hne : vocab ≠ []) :
    translatePhase lookup vocab tv = ⟨tv, [], false, 0, none⟩ := by
  have hfil : vocab.filter (fun w => !(tmKeys tv).contains w) = [] := by
    rw [List.filter_eq_nil_iff]
    intro a ha
    simpa using hsub a ha
  have htv : tv ≠ [] := by
    obtain ⟨v, hv⟩ := List.exists_mem_of_ne_nil vocab hne
    have hmem := hsub v hv
    intro hcon
    subst hcon
    simp [tmKeys] at hmem
  simp only [translatePhase, hfil]
  simp [htv]

/-- A dict assignment adds at most the assigned key. -/
theorem tmKeys_dictSet_sub (m : TransMap) (k : String) (v : List String) :
    ∀ w, w ∈ tmKeys (dictSet m k v) → w = k ∨ w ∈ tmKeys m := by
  induction m with
  | nil => intro w hw; simp [dictSet, tmKeys] at hw; exact Or.inl hw
  | cons p rest ih =>
    intro w hw
    obtain ⟨k', v'⟩ := p
    by_cases hk : k' = k
    · simp [dictSet, hk, tmKeys] at hw ⊢
      tauto
    · simp [dictSet, hk, tmKeys] at hw ⊢
      rcases hw with h1 | h1
      · tauto
      · rcases ih w (by simpa [tmKeys] using h1) with h2 | h2
        · tauto
        · simp [tmKeys] at h2
          tauto

/-- Any key of the mapping after the translation loop was already a key
before, or is a looked-up word whose lookup succeeded. -/
theorem translateLoop_keys (lookup : String → Option (List String)) :
    ∀ (ws : List String) (tv : TransMap) (w : String),
      w ∈ tmKeys (translateLoop lookup ws tv) →
        w ∈ tmKeys tv ∨ (w ∈ ws ∧ lookup w ≠ none) := by
  intro ws
  induction ws with
  | nil => intro tv w hw; exact Or.inl hw
  | cons w' ws' ih =>
    intro tv w hw
    simp only [translateLoop] at hw
    cases hl' : lookup w' with
    | some ts =>
      rw [hl'] at hw
      rcases ih _ w hw with h1 | h1
      · rcases tmKeys_dictSet_sub tv w' ts w h1 with h2 | h2
        · subst h2
          exact Or.inr ⟨List.mem_cons_self _ _, by simp [hl']⟩
        · exact Or.inl h2
      · exact Or.inr ⟨List.mem_cons_of_mem _ h1.1, h1.2⟩
    | none =>
      rw [hl'] at hw
      rcases ih _ w hw with h1 | h1
      · exact Or.inl h1
      · exact Or.inr ⟨List.mem_cons_of_mem _ h1.1, h1.2⟩

/-- Any key of the post-translation mapping was already a key of the loaded
mapping, or is a vocabulary word whose lookup succeeded. -/
theorem translatePhase_keys (lookup : String → Option (List String))
    (vocab : List String) (tv : TransMap) (w : String)
    (h : w ∈ tmKeys (translatePhase lookup vocab tv).map) :
    w ∈ tmKeys tv ∨ (w ∈ vocab ∧ lookup w ≠ none) := by
  simp only [translatePhase] at h
  split at h
  · exact Or.inl h
  · rcases translateLoop_keys lookup _ tv w h with h1 | h1
    · exact Or.inl h1
    · exact Or.inr ⟨List.mem_of_mem_filter h1.1, h1.2⟩

/-- With a permuting shuffle, every presented quiz word is a key of the
mapping the quiz runs over. -/
theorem quizPhase_presented_sub (tv : TransMap)
    (shuffle : List String → List String) (input : Nat → String)
    (hs : (shuffle (tmKeys tv)).Perm (tmKeys tv)) :
    ∀ w ∈ (quizPhase tv shuffle input).presented, w ∈ tmKeys tv := by
  intro w hw
  simp only [quizPhase] at hw
  rcases quizGo_presented_sub tv _ input _ _ _ _ _ _ _ hw with h1 | h1
  · simp at h1
  · exact hs.mem_iff.mp h1

/-- When the vocabulary is non-empty and the post-translation mapping is
non-empty, `write` reaches the quiz and reports over that mapping. -/
theorem write_valid_quiz (vocab : List String) (tv : TransMap)
    (lookup : String → Option (List String))
    (shuffle : List String → List String) (input : Nat → String)
    (hv : vocab ≠ []) (hm : (translatePhase lookup vocab tv).map ≠ []) :
    (write (.valid vocab) (.valid tv) lookup shuffle input).outcome =
        reportOutcome
          (quizPhase (translatePhase lookup vocab tv).map shuffle input) ∧
      (write (.valid vocab) (.valid tv) lookup shuffle input).presented =
        (quizPhase (translatePhase lookup vocab tv).map shuffle
          input).presented := by
  have he : vocab.isEmpty = false := by simpa [List.isEmpty_iff] using hv
  have hme : (translatePhase lookup vocab tv).map.isEmpty = false := by
    simpa [List.isEmpty_iff] using hm
  simp [write, load_vocab_from_file, load_translated_vocab, he, hme]

/-- When the vocabulary is non-empty but the post-translation mapping is
empty, `write` exits before the quiz and presents nothing. -/
theorem write_valid_noquiz (vocab : List String) (tv : TransMap)
    (lookup : String → Option (List String))
    (shuffle : List String → List String) (input : Nat → String)
    (hv : vocab ≠ []) (hm : (translatePhase lookup vocab tv).map = []) :
    (write (.valid vocab) (.valid tv) lookup shuffle input).outcome =
        .exit 0 ∧
      (write (.valid vocab) (.valid tv) lookup shuffle input).presented =
        [] := by
  have he : vocab.isEmpty = false := by simpa [List.isEmpty_iff] using hv
  have hme : (translatePhase lookup vocab tv).map.isEmpty = true := by
    simp [List.isEmpty_iff, hm]
  simp [write, load_vocab_from_file, load_translated_vocab, he, hme]

/-- Lesson iteration stops at a crown-empty lesson, wherever it sits: the
scan of `pre ++ l :: post` returns exactly the scan of `pre`. -/
theorem scrapeLessons_crown_halt :
    ∀ (pre : List Lesson) (l : Lesson) (post : List Lesson)
      (acc seen : List String), l.crownEmpty = true →
      scrapeLessons (pre ++ l :: post) acc seen =
        scrapeLessons pre acc seen := by
  intro pre
  induction pre with
  | nil => intro l post acc seen h; simp [scrapeLessons, h]
  | cons p pre' ih =>
    intro l post acc seen h
    simp only [List.cons_append, scrapeLessons]
    split
    · rfl
    · split
      · exact ih l post acc seen h
      · split
        · exact ih l post _ _ h
        · rfl

/-- Every word produced by the extraction loop is either carried over from
the accumulator or is the stripped text of one of the processed nodes. -/
theorem processWords_fst_mem :
    ∀ (ns acc seen : List String) (w : String),
      w ∈ (processWords ns acc seen).1 →
        w ∈ acc ∨ ∃ n ∈ ns, w = pyStrip n := by
  intro ns
  induction ns with
  | nil => intro acc seen w hw; exact Or.inl hw
  | cons n ns' ih =>
    intro acc seen w hw
    simp only [processWords] at hw
    split at hw
    · rcases ih _ _ _ hw with h1 | ⟨m, hm, he⟩
      · exact Or.inl h1
      · exact Or.inr ⟨m, List.mem_cons_of_mem _ hm, he⟩
    · rcases ih _ _ _ hw with h1 | ⟨m, hm, he⟩
      · rcases List.mem_append.mp h1 with h2 | h2
        · exact Or.inl h2
        · exact Or.inr ⟨n, List.mem_cons_self _ _, by simpa using h2⟩
      · exact Or.inr ⟨m, List.mem_cons_of_mem _ hm, he⟩

/-- Every word produced by the lesson scan is either carried over from the
accumulator or extracted (and stripped) from one of the scanned lessons. -/
theorem scrapeLessons_mem :
    ∀ (ls : List Lesson) (acc seen : List String) (w : String),
      w ∈ scrapeLessons ls acc seen →
        w ∈ acc ∨ ∃ les ∈ ls, ∃ n ∈ les.words, w = pyStrip n := by
  intro ls
  induction ls with
  | nil => intro acc seen w hw; exact Or.inl hw
  | cons l ls' ih =>
    intro acc seen w hw
    simp only [scrapeLessons] at hw
    split at hw
    · exact Or.inl hw
    · split at hw
      · rcases ih _ _ _ hw with h1 | ⟨les, hl, hn⟩
        · exact Or.inl h1
        · exact Or.inr ⟨les, List.mem_cons_of_mem _ hl, hn⟩
      · split at hw
        · rcases ih _ _ _ hw with h1 | ⟨les, hl, hn⟩
          · rcases processWords_fst_mem l.words acc seen w h1 with
              h2 | ⟨n, hn2, he⟩
            · exact Or.inl h2
            · exact Or.inr ⟨l, List.mem_cons_self _ _, n, hn2, he⟩
          · exact Or.inr ⟨les, List.mem_cons_of_mem _ hl, hn⟩
        · exact Or.inl hw

/-- Everything `firstSeen` keeps comes from its input. -/
theorem firstSeen_mem :
    ∀ (xs : List String) (w : String), w ∈ firstSeen xs → w ∈ xs := by
  intro xs
  induction xs using firstSeen.induct with
  | case1 => intro w hw; simp [firstSeen] at hw
  | case2 x xs ih =>
    intro w hw
    rw [firstSeen] at hw
    rcases List.mem_cons.mp hw with h1 | h1
    · exact h1 ▸ List.mem_cons_self _ _
    · exact List.mem_cons_of_mem _ (List.mem_of_mem_filter (ih w h1))

/-- `firstSeen` never keeps a word twice. -/
theorem firstSeen_nodup : ∀ xs : List String, (firstSeen xs).Nodup := by
  intro xs
  induction xs using firstSeen.induct with
  | case1 => simp [firstSeen]
  | case2 x xs ih =>
    rw [firstSeen]
    refine List.nodup_cons.mpr ⟨fun hmem => ?_, ih⟩
    have h2 := List.of_mem_filter (firstSeen_mem _ _ hmem)
    simp at h2

/-- The extraction loop, started from any accumulator/seen pair that agree
on membership, appends exactly the first-seen filtering of the stripped
nodes not already seen. -/
theorem processWords_eq_firstSeen :
    ∀ (ns acc seen : List String),
      (∀ u, u ∈ seen ↔ u ∈ acc) →
      (processWords ns acc seen).1 =
        acc ++ firstSeen
          ((ns.map pyStrip).filter (fun u => !seen.contains u)) := by
  intro ns
  induction ns with
  | nil => intro acc seen hinv; simp [processWords, firstSeen]
  | cons n ns' ih =>
    intro acc seen hinv
    simp only [processWords, List.map_cons, List.filter_cons]
    by_cases hc : pyStrip n ∈ seen
    · have hcb : seen.contains (pyStrip n) = true := List.elem_iff.mpr hc
      simp only [hcb, if_pos, Bool.not_true, Bool.false_eq_true, ite_false]
      exact ih acc seen hinv
    · have hcb : seen.contains (pyStrip n) = false := by
        simpa [List.elem_iff] using hc
      have hinv' : ∀ u, u ∈ seen ++ [pyStrip n] ↔ u ∈ acc ++ [pyStrip n] := by
        intro u
        simp only [List.mem_append, List.mem_singleton]
        exact or_congr_left (hinv u)
      rw [if_neg (by simpa using hc)]
      rw [ih _ _ hinv']
      have hflt : (ns'.map pyStrip).filter
            (fun u => !(seen ++ [pyStrip n]).contains u) =
          ((ns'.map pyStrip).filter (fun u => !seen.contains u)).filter
            (fun y => y ≠ pyStrip n) := by
        rw [List.filter_filter]
        refine List.filter_congr ?_
        intro a _
        rw [Bool.eq_iff_iff]
        simp [List.elem_iff, List.mem_append]
        tauto
      rw [hflt, show (!(seen.contains (pyStrip n))) = true by simpa using hc]
      simp only [if_pos]
      rw [firstSeen]
      simp

/-! ## Claims -/

/-- C9: Round-trip law: for every non-empty list of word strings, saving
the list to the vocabulary cache file and then loading it back yields the
identical ordered sequence. -/
theorem vocab_round_trip (l : List String) (_h : l ≠ []) :
    vocab_of_json (save_vocab_to_file l) = some l := by
  simp [vocab_of_json, save_vocab_to_file, stringsOfJson_map_str]

/-- Witness for C9 at the concrete list `["casa", "perro"]`. -/
theorem vocab_round_trip_witness :
    (["casa", "perro"] : List String) ≠ [] ∧
      vocab_of_json (save_vocab_to_file ["casa", "perro"]) =
        some ["casa", "perro"] :=
  ⟨by decide, vocab_round_trip ["casa", "perro"] (by decide)⟩

/-- C4 counterexample: with a vocabulary cache that parses to the empty
list, `write` raises the bare `typer.Exit()` whose default exit code is 0,
not 1. -/
theorem write_empty_vocab_exit_zero_cex :
    (write (.valid []) .missing (fun _ => none) id (fun _ => "y")).outcome =
        .exit 0 ∧
      (write (.valid []) .missing (fun _ => none) id
          (fun _ => "y")).outcome ≠ .exit 1 := by
  decide

/-- C4 amended: for every run of `write` in which the vocabulary cache file
exists and parses to an empty list, the command exits with exit code 0
(the bare `typer.Exit()` at line 181), not 1. -/
theorem write_empty_vocab_exit_code (tf : TransFile)
    (lookup : String → Option (List String))
    (shuffle : List String → List String) (input : Nat → String) :
    (write (.valid []) tf lookup shuffle input).outcome = .exit 0 := rfl

/-- C1: evaluating the quiz loop at eleven quizzable words: only the first
ten shuffled words are ever presented, the eleventh is silently dropped and
no continue prompt is ever shown (the user's answering `"y"` everywhere
included), because `question_index` is advanced by `batch_size` twice per
iteration (lines 253 and 269). The batches therefore do not partition the
shuffled word list. -/
theorem write_quiz_eleven_words_drops_one :
    (tmKeys elevenWordMap).length = 11 ∧
      (write (.valid (tmKeys elevenWordMap)) (.valid elevenWordMap)
          (fun _ => none) id (fun _ => "y")).presented =
        ["w01", "w02", "w03", "w04", "w05", "w06", "w07", "w08", "w09",
          "w10"] ∧
      "w11" ∈ tmKeys elevenWordMap ∧
      "w11" ∉ (write (.valid (tmKeys elevenWordMap)) (.valid elevenWordMap)
          (fun _ => none) id (fun _ => "y")).presented := by
  decide

/-- C2 counterexample: a session in which zero questions were answered (the
sole vocabulary word fails its translation lookup, leaving the mapping
empty) produces no report at all: `write` exits via bare `typer.Exit()`
(code 0) before the score line. -/
theorem write_zero_answered_no_report_cex :
    (write (.valid ["casa"]) .missing (fun _ => none) id
        (fun _ => "y")).presented = [] ∧
      (write (.valid ["casa"]) .missing (fun _ => none) id
          (fun _ => "y")).outcome = .exit 0 := by
  decide

/-- C3 counterexample: with the translated-vocabulary cache file present
but malformed, `write` does not exit: it continues with the empty mapping
as substitute data, re-translates the vocabulary (one lookup made) and
finishes the quiz normally. -/
theorem write_corrupt_translated_continues_cex :
    (write (.valid ["casa"]) .corrupt
        (fun w => if w == "casa" then some ["house"] else none) id
        (fun _ => "house")).outcome = .finished 1 1 ∧
      (write (.valid ["casa"]) .corrupt
          (fun w => if w == "casa" then some ["house"] else none) id
          (fun _ => "house")).lookups = ["casa"] := by
  decide

/-- C3 amended: malformed JSON in the translated-vocabulary cache is
non-fatal: `load_translated_vocab` prints a message and returns the empty
mapping, and the rest of the run is observably identical (outcome, browser
use, lookups, saves, saved content, presented questions) to a run in which
the file is missing — the words are simply re-translated. -/
theorem write_corrupt_translated_nonfatal :
    load_translated_vocab .corrupt = ([] : TransMap) ∧
      ∀ (vf : VocabFile) (lookup : String → Option (List String))
        (shuffle : List String → List String) (input : Nat → String),
        ((write vf .corrupt lookup shuffle input).outcome,
          (write vf .corrupt lookup shuffle input).browserOpened,
          (write vf .corrupt lookup shuffle input).lookups,
          (write vf .corrupt lookup shuffle input).saveCount,
          (write vf .corrupt lookup shuffle input).savedTrans,
          (write vf .corrupt lookup shuffle input).presented) =
        ((write vf .missing lookup shuffle input).outcome,
          (write vf .missing lookup shuffle input).browserOpened,
          (write vf .missing lookup shuffle input).lookups,
          (write vf .missing lookup shuffle input).saveCount,
          (write vf .missing lookup shuffle input).savedTrans,
          (write vf .missing lookup shuffle input).presented) := by
  refine ⟨rfl, ?_⟩
  intro vf lookup shuffle input
  cases vf with
  | missing => rfl
  | corrupt => rfl
  | valid v =>
    simp only [write, load_vocab_from_file, load_translated_vocab]
    split
    · rfl
    · split <;> rfl

/-- C2 amended: a session with zero answered questions never reaches the
final report (the command exits beforehand), so although the percentage
expression itself is unguarded, no `write` run ever raises a division
error, and every produced report covers at least one answered question. -/
theorem write_report_total_pos (vf : VocabFile) (tf : TransFile)
    (lookup : String → Option (List String))
    (shuffle : List String → List String) (input : Nat → String)
    (hs : ∀ l, (shuffle l).Perm l) :
    (write vf tf lookup shuffle input).outcome ≠ .divError ∧
      ∀ c t, (write vf tf lookup shuffle input).outcome = .finished c t →
        1 ≤ t := by
  rcases write_outcome_spec vf tf lookup shuffle input with
    ⟨c, hc⟩ | ⟨tv, htv, ho, _⟩
  · rw [hc]
    exact ⟨by simp, fun c' t' h => by simp at h⟩
  · rw [ho]
    have h1 : 1 ≤ (quizPhase tv shuffle input).total :=
      quizPhase_total_pos tv shuffle input (hs _) htv
    rw [reportOutcome, if_neg (by omega)]
    refine ⟨by simp, fun c' t' h => ?_⟩
    injection h with h2 h3
    omega

/-- Witness for C2's amended claim at a concrete session. -/
theorem write_report_total_pos_witness :
    (∀ l : List String, (id l).Perm l) ∧
      ((write (.valid ["casa"]) .missing (fun _ => none) id
            (fun _ => "y")).outcome ≠ .divError ∧
        ∀ c t, (write (.valid ["casa"]) .missing (fun _ => none) id
            (fun _ => "y")).outcome = .finished c t → 1 ≤ t) :=
  ⟨fun l => List.Perm.refl l,
    write_report_total_pos (.valid ["casa"]) .missing (fun _ => none) id
      (fun _ => "y") (fun l => List.Perm.refl l)⟩

/-- C5: Translator idempotence: whenever every word of the vocabulary list
is already a key of the translation mapping, `write` opens no browser
session, performs no lookup, and never writes the translation cache file,
which therefore stays byte-for-byte unchanged. -/
theorem translator_idempotent (vocab : List String) (tv : TransMap)
    (lookup : String → Option (List String))
    (shuffle : List String → List String) (input : Nat → String)
    (h : ∀ w ∈ vocab, w ∈ tmKeys tv) :
    (write (.valid vocab) (.valid tv) lookup shuffle input).browserOpened =
        false ∧
      (write (.valid vocab) (.valid tv) lookup shuffle input).lookups = [] ∧
      (write (.valid vocab) (.valid tv) lookup shuffle input).saveCount = 0 ∧
      (write (.valid vocab) (.valid tv) lookup shuffle
          input).finalTransFile = .valid tv := by
  by_cases hne : vocab = []
  · subst hne
    exact ⟨rfl, rfl, rfl, rfl⟩
  · have hemp : vocab.isEmpty = false := by
      simpa [List.isEmpty_iff] using hne
    simp only [write, load_vocab_from_file, load_translated_vocab, hemp,
      translatePhase_skip lookup vocab tv h hne]
    split
    · simp
    · split <;> simp

/-- Witness for C5 at a concrete vocabulary and mapping. -/
theorem translator_idempotent_witness :
    (∀ w ∈ (["casa"] : List String), w ∈ tmKeys [("casa", ["house"])]) ∧
      ((write (.valid ["casa"]) (.valid [("casa", ["house"])])
            (fun _ => none) id (fun _ => "y")).browserOpened = false ∧
        (write (.valid ["casa"]) (.valid [("casa", ["house"])])
            (fun _ => none) id (fun _ => "y")).lookups = [] ∧
        (write (.valid ["casa"]) (.valid [("casa", ["house"])])
            (fun _ => none) id (fun _ => "y")).saveCount = 0 ∧
        (write (.valid ["casa"]) (.valid [("casa", ["house"])])
            (fun _ => none) id (fun _ => "y")).finalTransFile =
          .valid [("casa", ["house"])]) :=
  ⟨by decide,
    translator_idempotent ["casa"] [("casa", ["house"])] (fun _ => none) id
      (fun _ => "y") (by decide)⟩

/-- C7: with cache `["casa", "perro"]` and existing translations
`{"casa": ["house"]}`, the translator looks up exactly `"perro"` (skipping
`"casa"`), keeps the existing `"casa"` entry untouched, and persists the
merged mapping exactly once with both keys present. -/
theorem translator_scenario_casa_perro
    (lookup : String → Option (List String)) (ts : List String)
    (shuffle : List String → List String) (input : Nat → String)
    (h : lookup "perro" = some ts) :
    (write (.valid ["casa", "perro"]) (.valid [("casa", ["house"])]) lookup
        shuffle input).lookups = ["perro"] ∧
      (write (.valid ["casa", "perro"]) (.valid [("casa", ["house"])])
          lookup shuffle input).saveCount = 1 ∧
      (write (.valid ["casa", "perro"]) (.valid [("casa", ["house"])])
          lookup shuffle input).savedTrans =
        some [("casa", ["house"]), ("perro", ts)] := by
  have hfil : (["casa", "perro"].filter
      (fun w => !(tmKeys [("casa", ["house"])]).contains w)) = ["perro"] := by
    decide
  have hph : translatePhase lookup ["casa", "perro"] [("casa", ["house"])] =
      ⟨[("casa", ["house"]), ("perro", ts)], ["perro"], true, 1,
        some [("casa", ["house"]), ("perro", ts)]⟩ := by
    simp only [translatePhase, hfil]
    simp [translateLoop, h, dictSet]
  simp only [write, load_vocab_from_file, load_translated_vocab, hph]
  simp

/-- Witness for C7 at a concrete lookup oracle. -/
theorem translator_scenario_casa_perro_witness :
    (fun w => if w == "perro" then some ["dog"] else none) "perro" =
        some ["dog"] ∧
      ((write (.valid ["casa", "perro"]) (.valid [("casa", ["house"])])
            (fun w => if w == "perro" then some ["dog"] else none) id
            (fun _ => "y")).lookups = ["perro"] ∧
        (write (.valid ["casa", "perro"]) (.valid [("casa", ["house"])])
            (fun w => if w == "perro" then some ["dog"] else none) id
            (fun _ => "y")).saveCount = 1 ∧
        (write (.valid ["casa", "perro"]) (.valid [("casa", ["house"])])
            (fun w => if w == "perro" then some ["dog"] else none) id
            (fun _ => "y")).savedTrans =
          some [("casa", ["house"]), ("perro", ["dog"])]) :=
  ⟨by decide,
    translator_scenario_casa_perro
      (fun w => if w == "perro" then some ["dog"] else none) ["dog"] id
      (fun _ => "y") (by decide)⟩

/-- C10: quiz words come exclusively from the keys of the (post-translation)
mapping, never from the raw vocabulary list: a vocabulary word absent from
the mapping whose lookup failed is never presented, and — provided the
mapping is non-empty — the session is not blocked: it runs to the final
report. -/
theorem quiz_words_from_translation_keys (vocab : List String)
    (tv : TransMap) (lookup : String → Option (List String))
    (shuffle : List String → List String) (input : Nat → String)
    (w : String) (hs : ∀ l, (shuffle l).Perm l) (hw : w ∈ vocab)
    (hk : w ∉ tmKeys tv) (hl : lookup w = none) :
    (∀ v ∈ (write (.valid vocab) (.valid tv) lookup shuffle
        input).presented, v ∈ tmKeys (translatePhase lookup vocab tv).map) ∧
      w ∉ (write (.valid vocab) (.valid tv) lookup shuffle
        input).presented ∧
      ((translatePhase lookup vocab tv).map ≠ [] →
        ∃ c t, (write (.valid vocab) (.valid tv) lookup shuffle
          input).outcome = .finished c t) := by
  have hv : vocab ≠ [] := List.ne_nil_of_mem hw
  by_cases hm : (translatePhase lookup vocab tv).map = []
  · obtain ⟨ho, hp⟩ := write_valid_noquiz vocab tv lookup shuffle input hv hm
    rw [hp]
    exact ⟨by simp, by simp, fun hcon => absurd hm hcon⟩
  · obtain ⟨ho, hp⟩ := write_valid_quiz vocab tv lookup shuffle input hv hm
    have hsub : ∀ v ∈ (write (.valid vocab) (.valid tv) lookup shuffle
        input).presented, v ∈ tmKeys (translatePhase lookup vocab tv).map := by
      rw [hp]
      exact quizPhase_presented_sub _ shuffle input (hs _)
    have hwk : w ∉ tmKeys (translatePhase lookup vocab tv).map := by
      intro hcon
      rcases translatePhase_keys lookup vocab tv w hcon with h1 | h1
      · exact hk h1
      · exact h1.2 hl
    refine ⟨hsub, fun hmem => hwk (hsub w hmem), fun _ => ?_⟩
    have h1 : 1 ≤ (quizPhase (translatePhase lookup vocab tv).map shuffle
        input).total := quizPhase_total_pos _ shuffle input (hs _) hm
    rw [ho, reportOutcome, if_neg (by omega)]
    exact ⟨_, _, rfl⟩

/-- Witness for C10: `"perro"` is in the vocabulary, absent from the
mapping, and its lookup fails; it is never quizzed, while the session still
finishes over the key `"casa"`. -/
theorem quiz_words_from_translation_keys_witness :
    (∀ l : List String, (id l).Perm l) ∧
      "perro" ∈ (["casa", "perro"] : List String) ∧
      "perro" ∉ tmKeys [("casa", ["house"])] ∧
      (fun u => if u == "casa" then some ["house"] else none) "perro" =
        none ∧
      ((∀ v ∈ (write (.valid ["casa", "perro"])
          (.valid [("casa", ["house"])])
          (fun u => if u == "casa" then some ["house"] else none) id
          (fun _ => "house")).presented,
          v ∈ tmKeys (translatePhase
            (fun u => if u == "casa" then some ["house"] else none)
            ["casa", "perro"] [("casa", ["house"])]).map) ∧
        "perro" ∉ (write (.valid ["casa", "perro"])
          (.valid [("casa", ["house"])])
          (fun u => if u == "casa" then some ["house"] else none) id
          (fun _ => "house")).presented ∧
        ((translatePhase
            (fun u => if u == "casa" then some ["house"] else none)
            ["casa", "perro"] [("casa", ["house"])]).map ≠ [] →
          ∃ c t, (write (.valid ["casa", "perro"])
            (.valid [("casa", ["house"])])
            (fun u => if u == "casa" then some ["house"] else none) id
            (fun _ => "house")).outcome = .finished c t)) :=
  ⟨fun l => List.Perm.refl l, by decide, by decide, by decide,
    quiz_words_from_translation_keys ["casa", "perro"]
      [("casa", ["house"])]
      (fun u => if u == "casa" then some ["house"] else none) id
      (fun _ => "house") "perro" (fun l => List.Perm.refl l) (by decide)
      (by decide) (by decide)⟩

/-- C6: scraper iteration halts at the first lesson whose crown-empty
marker is present: the output over `pre ++ l :: post` equals the output
over `pre` alone — independent of `l`'s words and of everything after it —
and every output word was extracted from a lesson before the halt. -/
theorem scrape_halts_at_crown_empty (pre : List Lesson) (l : Lesson)
    (post : List Lesson) (h : l.crownEmpty = true) :
    vocab_refresh_words (pre ++ l :: post) = vocab_refresh_words pre ∧
      ∀ w ∈ vocab_refresh_words (pre ++ l :: post),
        ∃ les ∈ pre, ∃ n ∈ les.words, w = pyStrip n := by
  have he := scrapeLessons_crown_halt pre l post [] [] h
  refine ⟨he, fun w hw => ?_⟩
  simp only [vocab_refresh_words] at hw
  rw [he] at hw
  rcases scrapeLessons_mem pre [] [] w hw with h1 | h1
  · simp at h1
  · exact h1

/-- Witness for C6: a crown-empty lesson carrying the word `"casa"` halts
the scan after the single completed lesson before it. -/
theorem scrape_halts_at_crown_empty_witness :
    (Lesson.mk true false true ["casa"]).crownEmpty = true ∧
      (vocab_refresh_words ([Lesson.mk false false true ["hola"]] ++
          Lesson.mk true false true ["casa"] ::
            [Lesson.mk false false true ["perro"]]) =
        vocab_refresh_words [Lesson.mk false false true ["hola"]] ∧
      ∀ w ∈ vocab_refresh_words ([Lesson.mk false false true ["hola"]] ++
          Lesson.mk true false true ["casa"] ::
            [Lesson.mk false false true ["perro"]]),
        ∃ les ∈ [Lesson.mk false false true ["hola"]],
          ∃ n ∈ les.words, w = pyStrip n) :=
  ⟨rfl, scrape_halts_at_crown_empty [Lesson.mk false false true ["hola"]]
    (Lesson.mk true false true ["casa"])
    [Lesson.mk false false true ["perro"]] rfl⟩

/-- C8: the scraper's deduplication keeps exactly one occurrence of each
normalized (stripped) word, at its first-seen position and in first-seen
relative order: the loop computes precisely the spec-level `firstSeen`
filtering of the stripped node sequence, and its output has no
duplicates. -/
theorem scrape_dedup_first_seen (nodes : List String) :
    scrape_dedup nodes = firstSeen (nodes.map pyStrip) ∧
      (scrape_dedup nodes).Nodup := by
  have he : scrape_dedup nodes = firstSeen (nodes.map pyStrip) := by
    have h1 := processWords_eq_firstSeen nodes [] [] (by simp)
    simpa [scrape_dedup] using h1
  exact ⟨he, he ▸ firstSeen_nodup _⟩

end DuoRecall
